import Mathlib

/-!
Verification development for the vision-api batch-processing engine.

Each Go component relevant to the specification is given a shallow
embedding: pure functions become Lean functions, stateful code becomes
explicit state passing, `time.Time` values become integer timestamps
(`time.After`/`Before` are `<`/`>` on integers), Go's multi-valued
returns become pairs, and a Go panic is modelled as `Option.none`.
Float64 confidence values are modelled as rationals; the arithmetic the
code performs on them (sums, one division) is exact at the inputs used.
-/

namespace RatePkg

/-- State of `rate.Limiter` (src/unnamed/part_001, lines 10-16): maximum
requests `rate` per `window`, the sliding list `requests` of recorded
grant timestamps, and `maxWaitTime`. -/
structure Limiter where
  rate : Int
  window : Int
  requests : List Int
  maxWaitTime : Int
deriving Repr, DecidableEq

/-- `NewLimiter` (part_001, lines 21-28): empty request window,
`maxWaitTime` initialised to the window length. -/
def NewLimiter (rate window : Int) : Limiter :=
  { rate := rate, window := window, requests := [], maxWaitTime := window }

/-- `Limiter.tryAcquire` (part_001, lines 48-80).  Prunes entries not
`After(cutoff)` (keeps `cutoff < t`, preserving order, and writes the
pruned list back), appends `now` and allows iff fewer than `rate`
remain; otherwise reports the delay until `requests[0]` leaves the
window.  `none` models the Go index-out-of-range panic on
`l.requests[0]`, reachable only when `rate ≤ 0`. -/
def tryAcquire (l : Limiter) (now : Int) : Option ((Int × Bool) × Limiter) :=
  let cutoff := now - l.window
  let kept := l.requests.filter (fun t => cutoff < t)
  if (kept.length : Int) < l.rate then
    some ((0, true), { l with requests := kept ++ [now] })
  else
    match kept with
    | [] => none
    | t0 :: _ =>
      let nextSlot := t0 + l.window
      let delay := nextSlot - now
      some ((delay, false), { l with requests := kept })

/-- `Limiter.GetCurrentRate` (part_001, lines 90-106): counts the
recorded timestamps still inside the window at time `now`. -/
def GetCurrentRate (l : Limiter) (now : Int) : Int :=
  ((l.requests.filter (fun t => now - l.window < t)).length : Int)

/-- `Limiter.Reset` (part_001, lines 109-113): clears the window. -/
def Reset (l : Limiter) : Limiter :=
  { l with requests := [] }

/-- `Limiter.Available` (part_001, lines 116-132): `rate` minus the
count of non-expired timestamps. -/
def Available (l : Limiter) (now : Int) : Int :=
  let cutoff := now - l.window
  let count := ((l.requests.filter (fun t => cutoff < t)).length : Int)
  l.rate - count

/-- `Limiter.SetMaxWaitTime` (part_001, lines 83-87). -/
def SetMaxWaitTime (l : Limiter) (d : Int) : Limiter :=
  { l with maxWaitTime := d }

/-- One state-mutating call against the limiter.  `Wait` (part_001,
lines 31-44) is a loop of `tryAcquire` calls, so any interleaving of
`Wait` callers is a sequence of `tryAcquireOp` steps; `GetCurrentRate`
and `Available` do not mutate state. -/
inductive LimiterOp where
  | tryAcquireOp (now : Int)
  | resetOp
  | setMaxWaitTimeOp (d : Int)
deriving Repr, DecidableEq

/-- Apply one operation to the limiter state.  On the (rate ≤ 0)
panic path of `tryAcquire` the state at the crash is unchanged. -/
def applyOp (l : Limiter) : LimiterOp → Limiter
  | .tryAcquireOp now =>
    match tryAcquire l now with
    | some (_, l') => l'
    | none => l
  | .resetOp => Reset l
  | .setMaxWaitTimeOp d => SetMaxWaitTime l d

/-- Run a sequence of operations from a starting state. -/
def runOps (l : Limiter) (ops : List LimiterOp) : Limiter :=
  ops.foldl applyOp l

/-- The window-capacity invariant: the stored timestamp list never
holds more than `rate` entries (and `rate` is non-negative, as it is
for every constructible limiter: `make` with a negative capacity
panics in `NewLimiter`). -/
def capInv (l : Limiter) : Prop :=
  0 ≤ l.rate ∧ (l.requests.length : Int) ≤ l.rate

end RatePkg

namespace VisionPkg

/-- State of the `vision.RateLimiter` (pkg/vision/client.go, lines
36-41): recorded request timestamps, `rateLimit`, `window`. -/
structure RateLimiter where
  requests : List Int
  rateLimit : Int
  window : Int
deriving Repr, DecidableEq

/-- The rate limiter as built by `NewClient` (client.go, lines 56-60):
empty window of length `window` (one minute in the code). -/
def newRateLimiter (rateLimit window : Int) : RateLimiter :=
  { requests := [], rateLimit := rateLimit, window := window }

/-- One sequential run of `RateLimiter.Wait` (client.go, lines
122-155), context never cancelled.  `now` is the wall-clock time at
entry; the result is the wall-clock time at which the call returns
(the grant instant) and the new state.  The code drops the leading
prefix of entries `Before(cutoff)`; if the remaining list is full it
sleeps until `requests[0] + window` and then — without re-checking the
admission condition — falls through, appends the stale `now` captured
before the sleep, and returns nil.  `none` models the Go panic on
`r.requests[0]` (reachable only when `rateLimit ≤ 0`). -/
def Wait (r : RateLimiter) (now : Int) : Option (Int × RateLimiter) :=
  let cutoff := now - r.window
  let pruned := r.requests.dropWhile (fun t => t < cutoff)
  if r.rateLimit ≤ (pruned.length : Int) then
    match pruned with
    | [] => none
    | t0 :: _ =>
      let waitTime := t0 + r.window - now
      let ret := if 0 < waitTime then now + waitTime else now
      some (ret, { r with requests := pruned ++ [now] })
  else
    some (now, { r with requests := pruned ++ [now] })

/-- Grant instants produced by a sequence of back-to-back `Wait` calls
entered at the given wall-clock times (each call completes before the
next begins; a panic ends the trace). -/
def waitTrace (r : RateLimiter) : List Int → List Int
  | [] => []
  | t :: ts =>
    match Wait r t with
    | none => []
    | some (g, r') => g :: waitTrace r' ts

/-- Number of grant instants lying in the half-open sliding window
`(s, s + w]`. -/
def grantsInWindow (grants : List Int) (s w : Int) : Nat :=
  (grants.filter (fun g => decide (s < g) && decide (g ≤ s + w))).length

/-- `vision.Label` (client.go, lines 20-24); the float64 score is a
rational here. -/
structure Label where
  description : String
  score : ℚ
deriving Repr, DecidableEq

/-- Outcome of one iteration body of the `DetectLabels` retry loop
(client.go, lines 76-87): `executeCommand` failed, or it succeeded and
the JSON parse failed, or the parsed response carried an API error, or
labels were obtained.  The outcome of attempt number `a` (0-based) is
supplied by an oracle `Nat → AttemptOutcome`. -/
inductive AttemptOutcome where
  | cmdFail (err : String)
  | parseFail (err : String)
  | apiError (msg : String)
  | ok (labels : List Label)
deriving Repr, DecidableEq

/-- Backoff delay computed after the failed attempt with 0-based index
`attempt` (client.go, lines 93-97): `InitialBackoff * (1 << attempt)`,
then capped at `MaxBackoff`.  Durations are natural numbers of time
units. -/
def backoffDelay (initialBackoff maxBackoff : Nat) (attempt : Nat) : Nat :=
  let delay := initialBackoff * 2 ^ attempt
  if maxBackoff < delay then maxBackoff else delay

deriving instance DecidableEq for Except

/-- Observable result of one `DetectLabels` call: the returned value,
how many attempts were executed, and the sleep durations performed
between attempts, in order. -/
structure RetryRun where
  result : Except String (List Label)
  attemptsMade : Nat
  delays : List Nat
deriving Repr, DecidableEq

/-- The retry loop of `DetectLabels` (client.go, lines 71-108) with the
context never cancelled, starting at attempt index `a` with `fuel`
loop iterations remaining (`fuel = maxRetries + 1 - a` at entry).  A
command failure at `a = maxRetries` returns the last error wrapped as
`max retries exceeded: `; otherwise it sleeps `backoffDelay` and
retries.  Parse failures and API-error responses return immediately
without retrying.  The fuel-exhausted case mirrors the unreachable
`failed to detect labels` return after the loop (client.go, line 108). -/
def detectLoop (maxRetries initialBackoff maxBackoff : Nat)
    (oracle : Nat → AttemptOutcome) : Nat → Nat → RetryRun
  | a, 0 => ⟨.error "failed to detect labels", a, []⟩
  | a, fuel + 1 =>
    match oracle a with
    | .ok labels => ⟨.ok labels, a + 1, []⟩
    | .parseFail e => ⟨.error ("failed to parse API response: " ++ e), a + 1, []⟩
    | .apiError m => ⟨.error ("API error: " ++ m), a + 1, []⟩
    | .cmdFail e =>
      if a == maxRetries then
        ⟨.error ("max retries exceeded: " ++ e), a + 1, []⟩
      else
        let d := backoffDelay initialBackoff maxBackoff a
        let rest := detectLoop maxRetries initialBackoff maxBackoff oracle (a + 1) fuel
        ⟨rest.result, rest.attemptsMade, d :: rest.delays⟩

/-- `Client.DetectLabels` (client.go, lines 65-109) for a non-cancelled
call whose rate-limiter wait has already been granted: the retry loop
from attempt 0. -/
def DetectLabels (maxRetries initialBackoff maxBackoff : Nat)
    (oracle : Nat → AttemptOutcome) : RetryRun :=
  detectLoop maxRetries initialBackoff maxBackoff oracle 0 (maxRetries + 1)

end VisionPkg

namespace Processor

/-- `processor.Label` (processor.go, lines 75-78). -/
structure Label where
  description : String
  score : ℚ
deriving Repr, DecidableEq

/-- `processor.ProcessInput` (processor.go, lines 45-54).  The engine
only ever reads the `Reader` for nil-ness (in `validateInput`) before
handing it to collaborators, so the reader is a presence flag here;
the metadata map is never read by any modelled path and is omitted. -/
structure ProcessInput where
  hasReader : Bool
  filename : String
deriving Repr, DecidableEq

/-- `processor.ProcessOutput` (processor.go, lines 57-72).  The Go
`Error error` field is an `Option String`; the `Data` bytes and the
metadata map are never branched on and are omitted. -/
structure ProcessOutput where
  filename : String
  labels : List Label
  error : Option String
deriving Repr, DecidableEq

/-- The zero value `ProcessOutput{}` returned by the error paths of
`Process` and `processImage`. -/
def emptyOutput : ProcessOutput :=
  { filename := "", labels := [], error := none }

/-- `utils.FileInfo` (internal/utils/file.go, lines 15-22), restricted
to the fields the processor reads. -/
structure FileInfo where
  path : String
  size : Int
  extension : String
deriving Repr, DecidableEq

/-- Collaborators and options of one `VisionProcessor`, as read by
`Process`/`ProcessBatch` (vision.go): the validation format list, the
output/temp-file options, and the external effects (image preparation
via temp file + `ImageHandler`, `VisionClient.DetectLabels`, result
saving, temp cleanup) as oracles keyed by their inputs. -/
structure Env where
  allowedFormats : List String
  outputDir : String
  deleteTempFiles : Bool
  prepare : ProcessInput → Except String FileInfo
  detect : String → Except String (List Label)
  save : ProcessOutput → Option String
  cleanup : Option String

/-- `filepath.Ext`: walk the path backwards; stop at a path separator;
return from the final dot (inclusive).  First argument is the reversed
character list still to scan, second the characters already passed
(in forward order). -/
def extFrom : List Char → List Char → String
  | [], _ => ""
  | c :: cs, acc =>
    if c == '/' then ""
    else if c == '.' then String.mk (c :: acc)
    else extFrom cs (c :: acc)

/-- `filepath.Ext(s)`. -/
def fileExt (s : String) : String :=
  extFrom (String.toList s).reverse []

/-- `VisionProcessor.validateInput` (vision.go, lines 210-237): reader
present, non-empty filename, extension present, extension (dot
stripped) among the allowed formats.  Returns the error, `none` when
valid. -/
def validateInput (allowedFormats : List String) (input : ProcessInput) : Option String :=
  if !input.hasReader then some "input reader is required"
  else if input.filename == "" then some "filename is required"
  else
    let ext := fileExt input.filename
    if ext == "" then some "filename must have an extension"
    else
      let format := String.mk (String.toList ext).tail
      if allowedFormats.contains format then none
      else some ("unsupported format: " ++ format)

/-- `VisionProcessor.processImage` (vision.go, lines 141-173), Go's
`(ProcessOutput, error)` return as a pair.  Preparation and detection
failures return the zero output with the wrapped error; a save failure
(only attempted when `OutputDir` is configured) returns the already
constructed output together with the wrapped error. -/
def processImage (env : Env) (input : ProcessInput) : ProcessOutput × Option String :=
  match env.prepare input with
  | .error e => (emptyOutput, some ("image preparation failed: " ++ e))
  | .ok fi =>
    match env.detect fi.path with
    | .error e => (emptyOutput, some ("label detection failed: " ++ ("vision API error: " ++ e)))
    | .ok labels =>
      let output : ProcessOutput := { filename := input.filename, labels := labels, error := none }
      if env.outputDir == "" then (output, none)
      else
        match env.save output with
        | some e => (output, some ("failed to save results: " ++ e))
        | none => (output, none)

/-- `VisionProcessor.Process` (vision.go, lines 45-60): validate, then
process (metrics recording is a no-op in the source). -/
def Process (env : Env) (input : ProcessInput) : ProcessOutput × Option String :=
  match validateInput env.allowedFormats input with
  | some e => (emptyOutput, some e)
  | none => processImage env input

/-- The per-job body of `VisionProcessor.worker` (vision.go, lines
126-136), context never cancelled: run `Process`, and on error set
`output.Error` before sending the output to the results channel. -/
def workerRun (env : Env) (input : ProcessInput) : ProcessOutput :=
  let pr := Process env input
  match pr.2 with
  | some e => { pr.1 with error := some e }
  | none => pr.1

/-- One scheduling event of a non-cancelled `ProcessBatch` run
(vision.go, lines 63-120): some idle worker takes the next job from the
`jobs` channel, or the worker holding the `i`-th in-flight job
completes it and sends its output on `results`.  Worker identities are
anonymised: a pool of `PoolSize` workers is exactly the constraint that
at most `PoolSize` jobs are in flight. -/
inductive PoolAction where
  | dequeue
  | finish (i : Nat)
deriving Repr, DecidableEq

/-- The pool's state mid-run: jobs not yet taken from the channel (the
feeder enqueues all inputs in order on a non-cancelled run), jobs held
by workers, and the outputs collected from the `results` channel. -/
structure PoolState where
  pending : List ProcessInput
  inFlight : List ProcessInput
  outputs : List ProcessOutput
deriving Repr, DecidableEq

/-- Initial state: every input queued, nothing running, no results. -/
def initState (inputs : List ProcessInput) : PoolState :=
  { pending := inputs, inFlight := [], outputs := [] }

/-- Apply one scheduling event.  A `dequeue` is enabled only while an
idle worker exists (fewer than `poolSize` jobs in flight) and the
channel is non-empty; a `finish i` is enabled only if an `i`-th
in-flight job exists.  Disabled events leave the state unchanged. -/
def stepPool (env : Env) (poolSize : Nat) (s : PoolState) : PoolAction → PoolState
  | .dequeue =>
    match s.pending with
    | [] => s
    | j :: rest =>
      if s.inFlight.length < poolSize then
        { pending := rest, inFlight := s.inFlight ++ [j], outputs := s.outputs }
      else s
  | .finish i =>
    match s.inFlight.get? i with
    | none => s
    | some j =>
      { pending := s.pending, inFlight := s.inFlight.eraseIdx i,
        outputs := s.outputs ++ [workerRun env j] }

/-- Run a schedule of events. -/
def runPool (env : Env) (poolSize : Nat) (s : PoolState) (acts : List PoolAction) : PoolState :=
  acts.foldl (stepPool env poolSize) s

/-- A run is complete when the jobs channel has been drained and every
worker has exited its loop: nothing pending, nothing in flight.  On a
non-cancelled run `ProcessBatch` returns only after `wg.Wait()` and the
drain of `results`, i.e. exactly then. -/
def complete (s : PoolState) : Prop :=
  s.pending = [] ∧ s.inFlight = []

/-- `VisionProcessor.ProcessBatch` (vision.go, lines 63-120) on a
non-cancelled run whose worker scheduling is `acts`: empty input
returns `(nil, nil)`; otherwise the pool runs, the outputs are
gathered, and — when `DeleteTempFiles` is set — a failing temp-file
cleanup wraps its error as `cleanup error: ` (the `errors` channel is
never written, so the final `select` always takes the default `nil`
branch). -/
def ProcessBatch (env : Env) (poolSize : Nat) (inputs : List ProcessInput)
    (acts : List PoolAction) : List ProcessOutput × Option String :=
  if inputs.length == 0 then ([], none)
  else
    let outputs := (runPool env poolSize (initState inputs) acts).outputs
    if env.deleteTempFiles then
      match env.cleanup with
      | some e => (outputs, some ("cleanup error: " ++ e))
      | none => (outputs, none)
    else (outputs, none)

end Processor

namespace Progress

/-- `progress.Tracker` (src/unnamed/part_000, lines 23-33): the four
atomic counters, whether the periodic ticker is running, whether the
`done` channel has been closed, and how many final summaries have been
rendered.  Counter values are integers (`atomic.Int64`). -/
structure Tracker where
  current : Int
  total : Int
  failed : Int
  skipped : Int
  tickerActive : Bool
  doneClosed : Bool
  finalSummaries : Nat
deriving Repr, DecidableEq

/-- `NewTracker` (part_000, lines 36-47): all counters zero (the
`total` argument is never stored by the source), ticker created
running, `done` open. -/
def NewTracker (_total : Int) : Tracker :=
  { current := 0, total := 0, failed := 0, skipped := 0,
    tickerActive := true, doneClosed := false, finalSummaries := 0 }

/-- `Tracker.Update` (part_000, lines 56-60): stores the three
arguments into the counters. -/
def Update (t : Tracker) (current failed skipped : Int) : Tracker :=
  { t with current := current, failed := failed, skipped := skipped }

/-- `Tracker.Increment` (part_000, lines 63-65). -/
def Increment (t : Tracker) : Tracker :=
  { t with current := t.current + 1 }

/-- `Tracker.IncrementFailed` (part_000, lines 68-70). -/
def IncrementFailed (t : Tracker) : Tracker :=
  { t with failed := t.failed + 1 }

/-- `Tracker.IncrementSkipped` (part_000, lines 73-75). -/
def IncrementSkipped (t : Tracker) : Tracker :=
  { t with skipped := t.skipped + 1 }

/-- `Tracker.Finish` (part_000, lines 78-82): stop the ticker, close
`done`, render the final summary.  There is no guard: a second call
reaches `close(t.done)` on an already-closed channel, which panics in
Go — modelled as `none`. -/
def Finish (t : Tracker) : Option Tracker :=
  if t.doneClosed then none
  else
    some { t with tickerActive := false, doneClosed := true,
                  finalSummaries := t.finalSummaries + 1 }

/-- One counter operation of the tracker's public mutating API. -/
inductive TrackerOp where
  | update (c f s : Int)
  | increment
  | incrementFailed
  | incrementSkipped
deriving Repr, DecidableEq

/-- Apply one counter operation. -/
def applyTrackerOp (t : Tracker) : TrackerOp → Tracker
  | .update c f s => Update t c f s
  | .increment => Increment t
  | .incrementFailed => IncrementFailed t
  | .incrementSkipped => IncrementSkipped t

/-- Run a sequence of counter operations. -/
def runTrackerOps (t : Tracker) (ops : List TrackerOp) : Tracker :=
  ops.foldl applyTrackerOp t

end Progress

namespace Dataset

/-- `dataset.Record` (src/unnamed/part_002, lines 21-30), restricted to
the fields `calculateStats` reads; float64 confidence is a rational. -/
structure Record where
  id : String
  labels : List String
  confidence : ℚ
  status : String
  errorMessage : String
deriving Repr, DecidableEq

/-- `dataset.Stats` (part_002, lines 33-42); the duration field is not
computed by `calculateStats` and is omitted. -/
structure Stats where
  totalRecords : Nat
  successfulCount : Nat
  failedCount : Nat
  skippedCount : Nat
  averageLabels : ℚ
  uniqueLabels : Nat
  averageConfidence : ℚ
deriving Repr, DecidableEq

/-- Accumulator of the single loop in `calculateStats` (part_002,
lines 176-198): the three status counters, the label and confidence
totals, and the `uniqueLabels` set (a Go map keyed by label; modelled
as a duplicate-free list in insertion order). -/
structure StatsAcc where
  successfulCount : Nat
  failedCount : Nat
  skippedCount : Nat
  totalLabels : Nat
  totalConfidence : ℚ
  uniqueLabels : List String
deriving Repr, DecidableEq

/-- `uniqueLabels[label] = struct{}{}`: insert a key into the set. -/
def insertLabel (s : List String) (l : String) : List String :=
  if s.contains l then s else s ++ [l]

/-- One iteration of the `calculateStats` loop over a record: bump the
counter matching the status (any other status counts nowhere), then
add the record's label count and confidence — whatever its status —
and insert its labels into the unique set. -/
def statsStep (acc : StatsAcc) (r : Record) : StatsAcc :=
  let acc1 :=
    if r.status == "success" then
      { acc with successfulCount := acc.successfulCount + 1 }
    else if r.status == "failed" then
      { acc with failedCount := acc.failedCount + 1 }
    else if r.status == "skipped" then
      { acc with skippedCount := acc.skippedCount + 1 }
    else acc
  { acc1 with
    totalLabels := acc1.totalLabels + r.labels.length,
    totalConfidence := acc1.totalConfidence + r.confidence,
    uniqueLabels := r.labels.foldl insertLabel acc1.uniqueLabels }

/-- The empty accumulator. -/
def emptyAcc : StatsAcc :=
  { successfulCount := 0, failedCount := 0, skippedCount := 0,
    totalLabels := 0, totalConfidence := 0, uniqueLabels := [] }

/-- `Generator.calculateStats` (part_002, lines 175-207).  Note the
averages divide the totals accumulated over ALL records by the
success count. -/
def calculateStats (records : List Record) : Stats :=
  let acc := records.foldl statsStep emptyAcc
  { totalRecords := records.length,
    successfulCount := acc.successfulCount,
    failedCount := acc.failedCount,
    skippedCount := acc.skippedCount,
    averageLabels :=
      if 0 < acc.successfulCount then (acc.totalLabels : ℚ) / acc.successfulCount else 0,
    uniqueLabels := acc.uniqueLabels.length,
    averageConfidence :=
      if 0 < acc.successfulCount then acc.totalConfidence / acc.successfulCount else 0 }

/-- Modelled from the spec (not from the source, which computes
something else): the arithmetic mean of the confidence values of the
success records only, stated for the refutation and amendment of the
mean-confidence clause. -/
def meanConfidenceOverSuccesses (records : List Record) : ℚ :=
  let succ := records.filter (fun r => r.status == "success")
  if 0 < succ.length then (succ.map (fun r => r.confidence)).sum / succ.length else 0

/-- A success record with confidence 1 (concrete test data). -/
def recSuccess : Record :=
  { id := "1", labels := [], confidence := 1, status := "success", errorMessage := "" }

/-- A failed record with confidence 1 (concrete test data). -/
def recFailed : Record :=
  { id := "2", labels := [], confidence := 1, status := "failed", errorMessage := "boom" }

end Dataset

namespace Processor

/-- A concrete processor environment for evaluations: only `jpg`
accepted, no output directory, no temp-file deletion, collaborators
that always succeed. -/
def sampleEnv : Env :=
  { allowedFormats := ["jpg"],
    outputDir := "",
    deleteTempFiles := false,
    prepare := fun i => Except.ok { path := "/tmp/" ++ i.filename, size := 1, extension := ".jpg" },
    detect := fun _ => Except.ok [{ description := "cat", score := 1 }],
    save := fun _ => none,
    cleanup := none }

/-- `sampleEnv` with temp-file deletion enabled and a failing cleanup. -/
def cleanupFailEnv : Env :=
  { sampleEnv with deleteTempFiles := true, cleanup := some "disk full" }

end Processor

/-! ## Theorems -/

namespace RatePkg

theorem tryAcquire_some_inv (l : Limiter) (now : Int) (h : capInv l)
    (db : Int × Bool) (l' : Limiter) (heq : tryAcquire l now = some (db, l')) :
    capInv l' ∧ l'.rate = l.rate := by
  obtain ⟨hr, hlen⟩ := h
  have hkl : ((l.requests.filter (fun t => now - l.window < t)).length : Int)
      ≤ (l.requests.length : Int) := by
    exact_mod_cast List.length_filter_le _ _
  simp only [tryAcquire] at heq
  split at heq
  · rcases Option.some.inj heq with h2
    obtain ⟨-, rfl⟩ := Prod.mk.injEq .. ▸ h2
    refine ⟨⟨hr, ?_⟩, rfl⟩
    simp only [List.length_append, List.length_cons, List.length_nil]
    push_cast
    omega
  · split at heq
    · exact absurd heq (by simp)
    · rcases Option.some.inj heq with h2
      obtain ⟨-, rfl⟩ := Prod.mk.injEq .. ▸ h2
      exact ⟨⟨hr, by simpa using hkl.trans hlen⟩, rfl⟩

theorem applyOp_inv (l : Limiter) (op : LimiterOp) (h : capInv l) :
    capInv (applyOp l op) ∧ (applyOp l op).rate = l.rate := by
  cases op with
  | tryAcquireOp now =>
    simp only [applyOp]
    cases hta : tryAcquire l now with
    | none => exact ⟨h, rfl⟩
    | some p => exact tryAcquire_some_inv l now h p.1 p.2 (by rw [hta])
  | resetOp => exact ⟨⟨h.1, by simpa [Reset] using h.1⟩, rfl⟩
  | setMaxWaitTimeOp d => exact ⟨h, rfl⟩

theorem runOps_inv (l : Limiter) (ops : List LimiterOp) (h : capInv l) :
    capInv (runOps l ops) ∧ (runOps l ops).rate = l.rate := by
  induction ops generalizing l with
  | nil => exact ⟨h, rfl⟩
  | cons op ops ih =>
    obtain ⟨h1, h2⟩ := applyOp_inv l op h
    obtain ⟨h3, h4⟩ := ih (applyOp l op) h1
    exact ⟨h3, h4.trans h2⟩

/-- C10: a `rate.Limiter` constructed with rate R (necessarily
non-negative, since `make` with a negative capacity panics) and any
window, driven by any sequence of `tryAcquire`, `Reset` and
`SetMaxWaitTime` steps (`Wait` is a loop of `tryAcquire` steps, and
`GetCurrentRate`/`Available` do not mutate the state), never stores
more than R timestamps, and `Available` never returns a negative
value at any inspection time. -/
theorem C10_window_capacity (rate window : Int) (ops : List LimiterOp) (hr : 0 ≤ rate) :
    (((runOps (NewLimiter rate window) ops).requests.length : Int) ≤ rate) ∧
    ∀ now, 0 ≤ Available (runOps (NewLimiter rate window) ops) now := by
  obtain ⟨⟨-, hlen⟩, hrate0⟩ :=
    runOps_inv (NewLimiter rate window) ops ⟨hr, by simpa [NewLimiter] using hr⟩
  have hrate : (runOps (NewLimiter rate window) ops).rate = rate := by
    simpa [NewLimiter] using hrate0
  constructor
  · omega
  · intro now
    have hcnt : (((runOps (NewLimiter rate window) ops).requests.filter
        (fun t => now - (runOps (NewLimiter rate window) ops).window < t)).length : Int)
        ≤ ((runOps (NewLimiter rate window) ops).requests.length : Int) := by
      exact_mod_cast List.length_filter_le _ _
    simp only [Available]
    omega

theorem C10_witness :
    (((runOps (NewLimiter 2 10) [LimiterOp.tryAcquireOp 0, LimiterOp.tryAcquireOp 1,
        LimiterOp.tryAcquireOp 2, LimiterOp.resetOp, LimiterOp.tryAcquireOp 3]).requests.length : Int) ≤ 2) ∧
    0 ≤ Available (runOps (NewLimiter 2 10) [LimiterOp.tryAcquireOp 0, LimiterOp.tryAcquireOp 1,
        LimiterOp.tryAcquireOp 2, LimiterOp.resetOp, LimiterOp.tryAcquireOp 3]) 5 :=
  ⟨(C10_window_capacity 2 10 [LimiterOp.tryAcquireOp 0, LimiterOp.tryAcquireOp 1,
      LimiterOp.tryAcquireOp 2, LimiterOp.resetOp, LimiterOp.tryAcquireOp 3] (by decide)).1,
   (C10_window_capacity 2 10 [LimiterOp.tryAcquireOp 0, LimiterOp.tryAcquireOp 1,
      LimiterOp.tryAcquireOp 2, LimiterOp.resetOp, LimiterOp.tryAcquireOp 3] (by decide)).2 5⟩

end RatePkg

namespace VisionPkg

/-- C2: refuted on `vision.RateLimiter.Wait` (client.go).  Three
sequential `Wait` calls against a limiter with R = 1, W = 10, entered
at times 0, 1 and 12: the second caller sees a full window, sleeps
until t = 10, and is then granted blindly — the code appends the stale
timestamp and returns without re-checking the admission condition.
The resulting grant instants are 0, 10 and 12, and the sliding window
(2, 12] of length W holds 2 > R = 1 grants. -/
theorem C2_client_wait_blind_grant :
    waitTrace (newRateLimiter 1 10) [0, 1, 12] = [0, 10, 12] ∧
    1 < grantsInWindow (waitTrace (newRateLimiter 1 10) [0, 1, 12]) 2 10 := by
  decide

end VisionPkg

namespace Progress

/-- C5: refuted on `Tracker.Finish` (part_000, lines 78-82).  The first
`Finish` renders exactly one final summary, but a second `Finish` calls
`close(t.done)` on an already-closed channel, which panics in Go
(modelled as `none`): the second call is a fault, not a no-op. -/
theorem C5_double_finish_panics :
    Option.map (fun t => t.finalSummaries) (Finish (NewTracker 10)) = some 1 ∧
    Option.bind (Finish (NewTracker 10)) Finish = none := by
  decide

end Progress

namespace Progress

/-- C9: refuted on `Tracker.Update` (part_000, lines 56-60).  `Update`
stores its arguments directly, so a second `Update` with a smaller
value makes the `current` counter decrease: after `Update(5,0,0)` the
counter is 5, and the operation `Update(3,0,0)` lowers it to 3. -/
theorem C9_counterexample_update_decreases :
    (applyTrackerOp (applyTrackerOp (NewTracker 10) (TrackerOp.update 5 0 0))
        (TrackerOp.update 3 0 0)).current
      < (applyTrackerOp (NewTracker 10) (TrackerOp.update 5 0 0)).current := by
  decide

/-- C9 (amended): under any sequence built from `Increment`,
`IncrementFailed` and `IncrementSkipped`, each of the current, failed
and skipped counters is monotonically non-decreasing; `Update` instead
stores its arguments verbatim and can decrease a counter when handed a
smaller value. -/
theorem C9_increment_ops_monotone (t : Tracker) (ops : List TrackerOp)
    (h : ∀ op ∈ ops, op = TrackerOp.increment ∨ op = TrackerOp.incrementFailed ∨
      op = TrackerOp.incrementSkipped) :
    t.current ≤ (runTrackerOps t ops).current ∧
    t.failed ≤ (runTrackerOps t ops).failed ∧
    t.skipped ≤ (runTrackerOps t ops).skipped := by
  induction ops generalizing t with
  | nil => simp [runTrackerOps]
  | cons op ops ih =>
    have hop := h op (List.mem_cons_self op ops)
    have hrest := ih (applyTrackerOp t op) (fun o ho => h o (List.mem_cons_of_mem _ ho))
    have hstep : t.current ≤ (applyTrackerOp t op).current ∧
        t.failed ≤ (applyTrackerOp t op).failed ∧
        t.skipped ≤ (applyTrackerOp t op).skipped := by
      rcases hop with rfl | rfl | rfl <;>
        refine ⟨?_, ?_, ?_⟩ <;>
        simp [applyTrackerOp, Increment, IncrementFailed, IncrementSkipped]
    have hrun : runTrackerOps t (op :: ops) = runTrackerOps (applyTrackerOp t op) ops := rfl
    rw [hrun]
    exact ⟨le_trans hstep.1 hrest.1, le_trans hstep.2.1 hrest.2.1,
      le_trans hstep.2.2 hrest.2.2⟩

theorem C9_increment_ops_monotone_witness :
    (NewTracker 0).current
      ≤ (runTrackerOps (NewTracker 0) [TrackerOp.increment, TrackerOp.incrementFailed]).current ∧
    (NewTracker 0).failed
      ≤ (runTrackerOps (NewTracker 0) [TrackerOp.increment, TrackerOp.incrementFailed]).failed ∧
    (NewTracker 0).skipped
      ≤ (runTrackerOps (NewTracker 0) [TrackerOp.increment, TrackerOp.incrementFailed]).skipped :=
  C9_increment_ops_monotone (NewTracker 0) [TrackerOp.increment, TrackerOp.incrementFailed]
    (by decide)

end Progress

namespace VisionPkg

theorem detectLoop_attempts_le (mr i m : Nat) (oracle : Nat → AttemptOutcome) :
    ∀ fuel a, (detectLoop mr i m oracle a fuel).attemptsMade ≤ a + fuel := by
  intro fuel
  induction fuel with
  | zero => intro a; simp [detectLoop]
  | succ fuel ih =>
    intro a
    simp only [detectLoop]
    cases ho : oracle a with
    | ok ls => simp
    | parseFail e => simp
    | apiError msg => simp
    | cmdFail e =>
      by_cases ha : a = mr
      · simp [ha]
      · have hbeq : (a == mr) = false := by simp [ha]
        simp only [hbeq, Bool.false_eq_true, if_false]
        have hrec := ih (a + 1)
        show (detectLoop mr i m oracle (a + 1) fuel).attemptsMade ≤ a + (fuel + 1)
        omega

theorem detectLoop_exhausts (mr i m : Nat) (oracle : Nat → AttemptOutcome)
    (hall : ∀ b, ∃ e, oracle b = AttemptOutcome.cmdFail e) :
    ∀ fuel a, a + fuel = mr + 1 → 0 < fuel →
      ∃ e, oracle mr = AttemptOutcome.cmdFail e ∧
        (detectLoop mr i m oracle a fuel).result
          = Except.error ("max retries exceeded: " ++ e) := by
  intro fuel
  induction fuel with
  | zero => intro a _ h1; omega
  | succ fuel ih =>
    intro a hsum _
    obtain ⟨e, he⟩ := hall a
    simp only [detectLoop, he]
    by_cases ha : a = mr
    · subst ha
      simp only [beq_self_eq_true, if_true]
      exact ⟨e, he, rfl⟩
    · have hbeq : (a == mr) = false := by simp [ha]
      simp only [hbeq, Bool.false_eq_true, if_false]
      have hfa : 0 < fuel := by omega
      have := ih (a + 1) (by omega) hfa
      simpa using this

/-- C7: refuted in its "wrapped with the attempt count" clause.  With
maxRetries = 2 and a command that always fails with `boom`, all three
attempts are executed and the surfaced error is exactly
`max retries exceeded: boom` — a fixed wrapper containing no digit at
all, hence not the attempt count 3. -/
theorem C7_counterexample_no_attempt_count :
    (DetectLabels 2 1 32 (fun _ => AttemptOutcome.cmdFail "boom")).result
      = Except.error "max retries exceeded: boom" ∧
    (DetectLabels 2 1 32 (fun _ => AttemptOutcome.cmdFail "boom")).attemptsMade = 3 ∧
    (String.toList "max retries exceeded: boom").all (fun c => !(Char.isDigit c)) = true := by
  decide

/-- C7 (amended): the underlying command is executed at most
maxRetries + 1 times, and when every attempt fails the caller receives
the last underlying error wrapped with the fixed
`max retries exceeded: ` prefix (the attempt count is not included in
the wrapper). -/
theorem C7_attempt_bound_and_exhaustion (mr i m : Nat) (oracle : Nat → AttemptOutcome) :
    (DetectLabels mr i m oracle).attemptsMade ≤ mr + 1 ∧
    ((∀ b, ∃ e, oracle b = AttemptOutcome.cmdFail e) →
      ∃ e, oracle mr = AttemptOutcome.cmdFail e ∧
        (DetectLabels mr i m oracle).result
          = Except.error ("max retries exceeded: " ++ e)) := by
  constructor
  · have h := detectLoop_attempts_le mr i m oracle (mr + 1) 0
    simpa [DetectLabels] using h
  · intro hall
    exact detectLoop_exhausts mr i m oracle hall (mr + 1) 0 (by omega) (by omega)

theorem C7_attempt_bound_witness :
    (DetectLabels 2 1 32 (fun _ => AttemptOutcome.cmdFail "boom")).attemptsMade ≤ 2 + 1 ∧
    ∃ e, AttemptOutcome.cmdFail "boom" = AttemptOutcome.cmdFail e ∧
      (DetectLabels 2 1 32 (fun _ => AttemptOutcome.cmdFail "boom")).result
        = Except.error ("max retries exceeded: " ++ e) :=
  ⟨(C7_attempt_bound_and_exhaustion 2 1 32 (fun _ => AttemptOutcome.cmdFail "boom")).1,
   (C7_attempt_bound_and_exhaustion 2 1 32 (fun _ => AttemptOutcome.cmdFail "boom")).2
     (fun _ => ⟨"boom", rfl⟩)⟩

end VisionPkg

namespace Processor

theorem stepPool_conservation (env : Env) (poolSize : Nat) (s : PoolState) (a : PoolAction) :
    (stepPool env poolSize s a).pending.length + (stepPool env poolSize s a).inFlight.length
      + (stepPool env poolSize s a).outputs.length
    = s.pending.length + s.inFlight.length + s.outputs.length := by
  cases a with
  | dequeue =>
    simp only [stepPool]
    cases hp : s.pending with
    | nil => simp [hp]
    | cons j rest =>
      by_cases hlt : s.inFlight.length < poolSize
      · simp [hp, hlt, List.length_append]
        omega
      · simp [hp, hlt]
  | finish i =>
    simp only [stepPool]
    cases hg : s.inFlight.get? i with
    | none => rfl
    | some j =>
      have hi : i < s.inFlight.length := (List.get?_eq_some.mp hg).1
      have hlen := List.length_eraseIdx_add_one hi
      simp only [List.length_append, List.length_cons, List.length_nil]
      omega

theorem runPool_conservation (env : Env) (poolSize : Nat) (acts : List PoolAction) :
    ∀ s : PoolState,
      (runPool env poolSize s acts).pending.length
        + (runPool env poolSize s acts).inFlight.length
        + (runPool env poolSize s acts).outputs.length
      = s.pending.length + s.inFlight.length + s.outputs.length := by
  induction acts with
  | nil => intro s; rfl
  | cons a acts ih =>
    intro s
    have hstep : runPool env poolSize s (a :: acts)
        = runPool env poolSize (stepPool env poolSize s a) acts := rfl
    rw [hstep, ih (stepPool env poolSize s a)]
    exact stepPool_conservation env poolSize s a

theorem ProcessBatch_fst (env : Env) (poolSize : Nat) (inputs : List ProcessInput)
    (acts : List PoolAction) (h : inputs.length ≠ 0) :
    (ProcessBatch env poolSize inputs acts).1
      = (runPool env poolSize (initState inputs) acts).outputs := by
  have hbeq : (inputs.length == 0) = false := by
    simpa using h
  simp only [ProcessBatch, hbeq, Bool.false_eq_true, if_false]
  by_cases hd : env.deleteTempFiles = true
  · simp only [hd, if_true]
    cases env.cleanup <;> rfl
  · have hd' : env.deleteTempFiles = false := by
      cases h : env.deleteTempFiles
      · rfl
      · exact absurd h hd
    simp [hd']

/-- C1: on every non-cancelled complete run of `ProcessBatch` on N
inputs — every job fed, every worker drained, for any interleaving of
worker scheduling — and every pool size from 1 to N, the returned
output list contains exactly N outputs, one per input. -/
theorem C1_batch_completeness (env : Env) (poolSize : Nat) (inputs : List ProcessInput)
    (acts : List PoolAction) (h1 : 1 ≤ poolSize) (h2 : poolSize ≤ inputs.length)
    (hc : complete (runPool env poolSize (initState inputs) acts)) :
    (ProcessBatch env poolSize inputs acts).1.length = inputs.length := by
  have hN : inputs.length ≠ 0 := by omega
  obtain ⟨hp, hf⟩ := hc
  have hcons := runPool_conservation env poolSize acts (initState inputs)
  rw [hp, hf] at hcons
  have h0 : (initState inputs).pending = inputs := rfl
  have hi1 : (initState inputs).inFlight = ([] : List ProcessInput) := rfl
  have hi2 : (initState inputs).outputs = ([] : List ProcessOutput) := rfl
  rw [h0, hi1, hi2] at hcons
  simp only [List.length_nil] at hcons
  rw [ProcessBatch_fst env poolSize inputs acts hN]
  omega

theorem C1_batch_completeness_witness :
    (ProcessBatch sampleEnv 2
        [{ hasReader := true, filename := "a.jpg" }, { hasReader := true, filename := "b.jpg" }]
        [PoolAction.dequeue, PoolAction.dequeue, PoolAction.finish 1,
          PoolAction.finish 0]).1.length
      = ([{ hasReader := true, filename := "a.jpg" },
          { hasReader := true, filename := "b.jpg" }] : List ProcessInput).length :=
  C1_batch_completeness sampleEnv 2
    [{ hasReader := true, filename := "a.jpg" }, { hasReader := true, filename := "b.jpg" }]
    [PoolAction.dequeue, PoolAction.dequeue, PoolAction.finish 1, PoolAction.finish 0]
    (by decide) (by decide) (by constructor <;> decide)

/-- C4: refuted on the failure path of `Process` (vision.go).  An input
whose validation fails (here: extension `txt` not among the allowed
formats) is emitted by the worker as the zero-value output with the
error captured — but with an empty `Filename`, not the input's
identifier `photo.txt`, so this output cannot be correlated to its
input by identifier. -/
theorem C4_counterexample_lost_identifier :
    workerRun sampleEnv { hasReader := true, filename := "photo.txt" }
      = { filename := "", labels := [], error := some "unsupported format: txt" } ∧
    ({ hasReader := true, filename := "photo.txt" } : ProcessInput).filename ≠ "" := by
  constructor
  · decide
  · decide

/-- C4 (amended): every per-item error is captured on the emitted
output rather than failing the batch, and exactly one of two cases
holds.  Either processing reached output construction — validation,
preparation and label detection all succeeded — and the output carries
the input's Filename (also when saving the results then fails); or one
of validation, preparation or label detection failed, and the worker
emits precisely the zero-value output with the error captured, i.e.
with an empty Filename.  Correlation by identifier is therefore only
possible for outputs of the first kind. -/
theorem C4_error_capture (env : Env) (input : ProcessInput) :
    (workerRun env input).error = (Process env input).2 ∧
    ((validateInput env.allowedFormats input = none ∧
        (∃ fi, env.prepare input = Except.ok fi ∧
          ∃ labels, env.detect fi.path = Except.ok labels) ∧
        (workerRun env input).filename = input.filename) ∨
      ((validateInput env.allowedFormats input ≠ none ∨
        (∃ e, env.prepare input = Except.error e) ∨
        (∃ fi, env.prepare input = Except.ok fi ∧
          ∃ e, env.detect fi.path = Except.error e)) ∧
        workerRun env input
          = { emptyOutput with error := (Process env input).2 })) := by
  cases hv : validateInput env.allowedFormats input with
  | some e =>
    refine ⟨?_, Or.inr ⟨Or.inl (by simp [hv]), ?_⟩⟩
    · simp [workerRun, Process, hv]
    · simp [workerRun, Process, hv, emptyOutput]
  | none =>
    cases hp : env.prepare input with
    | error e =>
      refine ⟨?_, Or.inr ⟨Or.inr (Or.inl ⟨e, rfl⟩), ?_⟩⟩
      · simp [workerRun, Process, processImage, hv, hp]
      · simp [workerRun, Process, processImage, hv, hp, emptyOutput]
    | ok fi =>
      cases hd : env.detect fi.path with
      | error e =>
        refine ⟨?_, Or.inr ⟨Or.inr (Or.inr ⟨fi, rfl, e, hd⟩), ?_⟩⟩
        · simp [workerRun, Process, processImage, hv, hp, hd]
        · simp [workerRun, Process, processImage, hv, hp, hd, emptyOutput]
      | ok labels =>
        refine ⟨?_, Or.inl ⟨rfl, ⟨fi, rfl, labels, hd⟩, ?_⟩⟩ <;>
          by_cases ho : env.outputDir = ""
        · simp [workerRun, Process, processImage, hv, hp, hd, ho]
        · cases hs : env.save { filename := input.filename, labels := labels, error := none } with
          | some e => simp [workerRun, Process, processImage, hv, hp, hd, ho, hs]
          | none => simp [workerRun, Process, processImage, hv, hp, hd, ho, hs]
        · simp [workerRun, Process, processImage, hv, hp, hd, ho]
        · cases hs : env.save { filename := input.filename, labels := labels, error := none } with
          | some e => simp [workerRun, Process, processImage, hv, hp, hd, ho, hs]
          | none => simp [workerRun, Process, processImage, hv, hp, hd, ho, hs]

theorem C4_error_capture_witness :
    (workerRun sampleEnv { hasReader := true, filename := "a.jpg" }).error
      = (Process sampleEnv { hasReader := true, filename := "a.jpg" }).2 ∧
    ((validateInput sampleEnv.allowedFormats { hasReader := true, filename := "a.jpg" } = none ∧
        (∃ fi, sampleEnv.prepare { hasReader := true, filename := "a.jpg" } = Except.ok fi ∧
          ∃ labels, sampleEnv.detect fi.path = Except.ok labels) ∧
        (workerRun sampleEnv { hasReader := true, filename := "a.jpg" }).filename
          = ({ hasReader := true, filename := "a.jpg" } : ProcessInput).filename) ∨
      ((validateInput sampleEnv.allowedFormats { hasReader := true, filename := "a.jpg" } ≠ none ∨
        (∃ e, sampleEnv.prepare { hasReader := true, filename := "a.jpg" } = Except.error e) ∨
        (∃ fi, sampleEnv.prepare { hasReader := true, filename := "a.jpg" } = Except.ok fi ∧
          ∃ e, sampleEnv.detect fi.path = Except.error e)) ∧
        workerRun sampleEnv { hasReader := true, filename := "a.jpg" }
          = { emptyOutput with
              error := (Process sampleEnv { hasReader := true, filename := "a.jpg" }).2 })) :=
  C4_error_capture sampleEnv { hasReader := true, filename := "a.jpg" }

/-- C8: refuted on the cleanup path of `ProcessBatch` (vision.go,
lines 108-112).  With `DeleteTempFiles` set and a failing temp-file
cleanup, a batch whose single item was fully and successfully
processed still returns a non-nil batch-level error — an error caused
by an event after item processing began, which the claim rules out. -/
theorem C8_counterexample_cleanup_error :
    ProcessBatch cleanupFailEnv 1 [{ hasReader := true, filename := "a.jpg" }]
        [PoolAction.dequeue, PoolAction.finish 0]
      = ([{ filename := "a.jpg", labels := [{ description := "cat", score := 1 }],
            error := none }],
         some "cleanup error: disk full") := by
  decide

/-- C8 (amended): per-item errors never abort other items or fail the
batch; the only non-nil error `ProcessBatch` itself returns is a
temp-file cleanup failure at the end of the batch (when
`DeleteTempFiles` is set), and the collected outputs are returned even
then.  Setup failures surface from `NewProcessor`, before
`ProcessBatch` is ever entered. -/
theorem C8_batch_error_sources (env : Env) (poolSize : Nat) (inputs : List ProcessInput)
    (acts : List PoolAction) :
    ((ProcessBatch env poolSize inputs acts).2 = none ∨
      (env.deleteTempFiles = true ∧ ∃ e, env.cleanup = some e ∧
        (ProcessBatch env poolSize inputs acts).2 = some ("cleanup error: " ++ e))) ∧
    (inputs.length ≠ 0 → (ProcessBatch env poolSize inputs acts).1
        = (runPool env poolSize (initState inputs) acts).outputs) := by
  refine ⟨?_, ProcessBatch_fst env poolSize inputs acts⟩
  by_cases hN : inputs.length = 0
  · have hbeq : (inputs.length == 0) = true := by simpa using hN
    left
    simp [ProcessBatch, hbeq]
  · have hbeq : (inputs.length == 0) = false := by simpa using hN
    by_cases hd : env.deleteTempFiles = true
    · cases hcl : env.cleanup with
      | none => left; simp [ProcessBatch, hbeq, hd, hcl]
      | some e =>
        right
        exact ⟨hd, e, rfl, by simp [ProcessBatch, hbeq, hd, hcl]⟩
    · left
      have hd' : env.deleteTempFiles = false := by
        cases h : env.deleteTempFiles
        · rfl
        · exact absurd h hd
      simp [ProcessBatch, hbeq, hd']

theorem C8_batch_error_sources_witness :
    (cleanupFailEnv.deleteTempFiles = true ∧ ∃ e, cleanupFailEnv.cleanup = some e ∧
      (ProcessBatch cleanupFailEnv 1 [{ hasReader := true, filename := "a.jpg" }]
          [PoolAction.dequeue, PoolAction.finish 0]).2 = some ("cleanup error: " ++ e)) ∧
    (ProcessBatch cleanupFailEnv 1 [{ hasReader := true, filename := "a.jpg" }]
        [PoolAction.dequeue, PoolAction.finish 0]).1
      = (runPool cleanupFailEnv 1 (initState [{ hasReader := true, filename := "a.jpg" }])
          [PoolAction.dequeue, PoolAction.finish 0]).outputs :=
  ⟨(C8_batch_error_sources cleanupFailEnv 1 [{ hasReader := true, filename := "a.jpg" }]
      [PoolAction.dequeue, PoolAction.finish 0]).1.resolve_left
        (by decide),
   (C8_batch_error_sources cleanupFailEnv 1 [{ hasReader := true, filename := "a.jpg" }]
      [PoolAction.dequeue, PoolAction.finish 0]).2 (by decide)⟩

end Processor

namespace Dataset

theorem statsStep_fields (acc : StatsAcc) (r : Record) :
    (statsStep acc r).successfulCount
        = acc.successfulCount + (if r.status == "success" then 1 else 0) ∧
    (statsStep acc r).failedCount
        = acc.failedCount + (if r.status == "failed" then 1 else 0) ∧
    (statsStep acc r).skippedCount
        = acc.skippedCount + (if r.status == "skipped" then 1 else 0) ∧
    (statsStep acc r).totalConfidence = acc.totalConfidence + r.confidence := by
  by_cases h1 : r.status = "success"
  · simp [statsStep, h1]
  · by_cases h2 : r.status = "failed"
    · simp [statsStep, h1, h2]
    · by_cases h3 : r.status = "skipped"
      · simp [statsStep, h1, h2, h3]
      · simp [statsStep, h1, h2, h3]

theorem foldl_statsStep_fields (records : List Record) : ∀ acc : StatsAcc,
    (records.foldl statsStep acc).successfulCount
      = acc.successfulCount + records.countP (fun r => r.status == "success") ∧
    (records.foldl statsStep acc).failedCount
      = acc.failedCount + records.countP (fun r => r.status == "failed") ∧
    (records.foldl statsStep acc).skippedCount
      = acc.skippedCount + records.countP (fun r => r.status == "skipped") ∧
    (records.foldl statsStep acc).totalConfidence
      = acc.totalConfidence + (records.map (fun r => r.confidence)).sum := by
  induction records with
  | nil => intro acc; simp
  | cons r rs ih =>
    intro acc
    obtain ⟨hs, hf, hk, hc⟩ := statsStep_fields acc r
    obtain ⟨is, if_, ik, ic⟩ := ih (statsStep acc r)
    refine ⟨?_, ?_, ?_, ?_⟩ <;>
      simp only [List.foldl_cons, List.countP_cons, List.map_cons, List.sum_cons,
        is, if_, ik, ic, hs, hf, hk, hc] <;>
      ring

/-- C6: refuted in its mean-confidence clause.  `calculateStats` adds
the confidence of every record — whatever its status — into the total
it divides by the success count: for one success and one failed
record, each with confidence 1, it reports mean confidence 2, while
the arithmetic mean over the success records only is 1. -/
theorem C6_counterexample_mean_confidence :
    (calculateStats [recSuccess, recFailed]).averageConfidence = 2 ∧
    meanConfidenceOverSuccesses [recSuccess, recFailed] = 1 ∧
    (calculateStats [recSuccess, recFailed]).averageConfidence
      ≠ meanConfidenceOverSuccesses [recSuccess, recFailed] := by
  have hb1 : (("failed" : String) == "success") = false := by decide
  have hb2 : (("failed" : String) = "success") = False := eq_false (by decide)
  have h1 : (calculateStats [recSuccess, recFailed]).averageConfidence = 2 := by
    norm_num [calculateStats, statsStep, emptyAcc, recSuccess, recFailed, insertLabel,
      hb1, hb2]
  have h2 : meanConfidenceOverSuccesses [recSuccess, recFailed] = 1 := by
    norm_num [meanConfidenceOverSuccesses, recSuccess, recFailed, hb1, hb2]
  refine ⟨h1, h2, ?_⟩
  rw [h1, h2]
  norm_num

/-- C6 (amended): the status counters are exact — `successCount`,
`failedCount` and `skippedCount` equal the number of records with the
corresponding status, and for statuses [success, success, failed] the
aggregator reports successCount = 2 and failedCount = 1 — but the
reported mean confidence is the sum of the confidence values of ALL
records divided by the success count (0 when there are no successes),
not the mean over the success records only. -/
theorem C6_stats_counts (records : List Record) :
    (calculateStats records).successfulCount
      = records.countP (fun r => r.status == "success") ∧
    (calculateStats records).failedCount
      = records.countP (fun r => r.status == "failed") ∧
    (calculateStats records).skippedCount
      = records.countP (fun r => r.status == "skipped") ∧
    (calculateStats records).averageConfidence
      = (if 0 < records.countP (fun r => r.status == "success")
         then ((records.map (fun r => r.confidence)).sum)
            / (records.countP (fun r => r.status == "success") : ℚ)
         else 0) ∧
    (calculateStats [recSuccess, recSuccess, recFailed]).successfulCount = 2 ∧
    (calculateStats [recSuccess, recSuccess, recFailed]).failedCount = 1 := by
  obtain ⟨hs, hf, hk, hc⟩ := foldl_statsStep_fields records emptyAcc
  have hs' : (records.foldl statsStep emptyAcc).successfulCount
      = records.countP (fun r => r.status == "success") := by
    simpa [emptyAcc] using hs
  have hf' : (records.foldl statsStep emptyAcc).failedCount
      = records.countP (fun r => r.status == "failed") := by
    simpa [emptyAcc] using hf
  have hk' : (records.foldl statsStep emptyAcc).skippedCount
      = records.countP (fun r => r.status == "skipped") := by
    simpa [emptyAcc] using hk
  have hc' : (records.foldl statsStep emptyAcc).totalConfidence
      = (records.map (fun r => r.confidence)).sum := by
    simpa [emptyAcc] using hc
  refine ⟨hs', hf', hk', ?_, by decide, by decide⟩
  simp only [calculateStats, hs', hc']

end Dataset
